import Mathlib

/-!
Shallow embedding of `src/gateway/src/connectors/uniswap/uniswap.ts`
(the `Uniswap` connector class of the hummingbot gateway).

External collaborators (the Ethereum chain, the factory contract, the
`@uniswap/sdk` pair fetcher, the per-wallet nonce manager and the
transaction submission endpoint) are modelled as explicit oracle
parameters.  Asynchronous methods become pure functions; thrown
exceptions become `Except` errors; JS amounts (`BigNumber` /
`TokenAmount` fractions) are modelled as exact rationals `ℚ`.

Parts of the behaviour live in the `@uniswap/sdk` dependency, which is
not part of this repository's sources; those definitions are marked
`Modelled from the spec:` and follow the specification's wording.
-/

/-- On-chain token metadata as stored in the chain token list
(the entries of `ethereum.storedTokenList` / `getTokenForSymbol`). -/
structure TokenInfo where
  address : String
  decimals : Nat
  symbol : String
  name : String
deriving DecidableEq

/-- The connector's native token representation
(`new Token(chainId, address, decimals, symbol, name)` from the SDK);
`symbol` and `name` are optional in the SDK constructor, which the
source relies on in `getTradeRoute` (`token.symbol !== undefined`). -/
structure Token where
  chainId : Nat
  address : String
  decimals : Nat
  symbol : Option String
  name : Option String
deriving DecidableEq

/-- A liquidity pool (`Pair` from the SDK): two tokens with their
fetched reserves. -/
structure Pair where
  tokenA : Token
  tokenB : Token
  reserveA : ℚ
  reserveB : ℚ
deriving DecidableEq

/-- External collaborators used by initialization and quoting: symbol
resolution (`ethereum.getTokenForSymbol`), the factory contract's
`getPair` call, the SDK's `Fetcher.fetchPairData`, chain readiness
(`ethereum.ready()`) and the chain token list
(`ethereum.storedTokenList`). -/
structure Env where
  getTokenForSymbol : String → Option TokenInfo
  getPair : String → String → String
  fetchPairData : Token → Token → Pair
  chainReady : Bool
  storedTokenList : List TokenInfo

/-- The fields of a `Uniswap` instance that the verified methods read or
write: configuration fixed by the constructor (`_chain`, `chainId`,
`_poolStrings`, `_maxHops`) and mutable state (`tokenList`, `_pools`,
`_ready`). -/
structure UniswapState where
  chain : String
  chainId : Nat
  poolStrings : List String
  maxHops : Nat
  tokenList : String → Option Token
  pools : List Pair
  ready : Bool

/-- The zero-address sentinel (`zeroAddress` from `services/ethereum-base`,
not under the verified sources; its exact value is the standard all-zero
account address and only matters as a comparison sentinel). -/
def zeroAddress : String := "0x0000000000000000000000000000000000000000"

/-- Building the connector token from chain token info
(`new Token(this.chainId, info.address, info.decimals, info.symbol, info.name)`). -/
def tokenOfInfo (chainId : Nat) (info : TokenInfo) : Token :=
  ⟨chainId, info.address, info.decimals, some info.symbol, some info.name⟩

/-- Setting a key of a JS record
(`this.tokenList[token.address] = new Token(...)`). -/
def recordSet (m : String → Option Token) (k : String) (v : Token) :
    String → Option Token :=
  fun a => if a = k then some v else m a

/-- The token-list loading loop of `init`
(`for (const token of this.ethereum.storedTokenList) ...`). -/
def tokenLoad (m : String → Option Token) (chainId : Nat)
    (l : List TokenInfo) : String → Option Token :=
  l.foldl (fun m info => recordSet m info.address (tokenOfInfo chainId info)) m

/-- JS `string.split('-')`: splits into the (possibly empty) chunks
between occurrences of the separator. -/
def splitDash (s : String) : List String :=
  (s.toList.foldr
    (fun c acc =>
      match acc with
      | cur :: rest => if c = '-' then [] :: cur :: rest else (c :: cur) :: rest
      | [] => [[c]])
    [[]]).map List.asString

/-- `getPool`: asks the factory for the pair address and treats the
zero address as "no pool" (`pairAddress !== zeroAddress ? pairAddress : null`). -/
def getPool (env : Env) (tokenA tokenB : Token) : Option String :=
  let pairAddress := env.getPair tokenA.address tokenB.address
  if pairAddress ≠ zeroAddress then some pairAddress else none

/-- The per-entry warnings logged by `initDirectPools`, carrying the data
interpolated into each message. -/
inductive PoolWarning where
  | malformed (entry : String)
  | unknownBase (base : String)
  | unknownQuote (quote : String)
  | noDirectPool (base quote : String)
deriving DecidableEq

/-- The body of the `initDirectPools` loop for one pool-spec entry:
split on `-`, resolve both symbols, check the factory pair address, and
either produce the fetched pair or a warning.  The `if (pool)` guard in
the source is JS truthiness on `string | null`: it rejects `null` and
the empty string. -/
def processPoolString (env : Env) (chainId : Nat) (entry : String) :
    Option Pair × List PoolWarning :=
  match splitDash entry with
  | [base, quote] =>
    match env.getTokenForSymbol base, env.getTokenForSymbol quote with
    | some baseInfo, some quoteInfo =>
      let baseToken := tokenOfInfo chainId baseInfo
      let quoteToken := tokenOfInfo chainId quoteInfo
      (match getPool env baseToken quoteToken with
       | some addr =>
         if addr ≠ "" then
           (some (env.fetchPairData baseToken quoteToken), [])
         else (none, [.noDirectPool base quote])
       | none => (none, [.noDirectPool base quote]))
    | none, _ => (none, [.unknownBase base])
    | some _, none => (none, [.unknownQuote quote])
  | _ => (none, [.malformed entry])

/-- The pairs pushed onto `this._pools` by one full run of
`initDirectPools`, in entry order. -/
def fetchedPools (env : Env) (s : UniswapState) : List Pair :=
  s.poolStrings.filterMap (fun e => (processPoolString env s.chainId e).1)

/-- The warnings logged by one full run of `initDirectPools`, in entry
order. -/
def fetchedWarnings (env : Env) (s : UniswapState) : List PoolWarning :=
  s.poolStrings.foldr (fun e acc => (processPoolString env s.chainId e).2 ++ acc) []

/-- `initDirectPools`: processes every configured pool-spec entry in
order, appending each successfully fetched pair to `this._pools`. -/
def initDirectPools (env : Env) (s : UniswapState) :
    UniswapState × List PoolWarning :=
  ({ s with pools := s.pools ++ fetchedPools env s }, fetchedWarnings env s)

/-- The error thrown by `init` when the chain service is not ready
(`InitializationError(SERVICE_UNITIALIZED_ERROR_MESSAGE, ...)`). -/
inductive InitErr where
  | serviceUnavailable
deriving DecidableEq

/-- `init`: fails if the ethereum chain is not ready, otherwise loads the
stored token list into `tokenList`, runs `initDirectPools`, and sets
`_ready`. -/
def init (env : Env) (s : UniswapState) :
    Except InitErr (UniswapState × List PoolWarning) :=
  if s.chain = "ethereum" ∧ env.chainReady = false then
    .error .serviceUnavailable
  else
    let s1 := { s with tokenList := tokenLoad s.tokenList s.chainId env.storedTokenList }
    let r := initDirectPools env s1
    .ok ({ r.1 with ready := true }, r.2)

/-- Modelled from the spec: the Pool Graph is an undirected multigraph
whose nodes are tokens and whose edges are pools; this reads a pool as
an edge incident to `t`, yielding the opposite endpoint. -/
def pairOther (p : Pair) (t : Token) : Option Token :=
  if p.tokenA = t then some p.tokenB
  else if p.tokenB = t then some p.tokenA
  else none

/-- Modelled from the spec: the reserves of a pool seen from the side of
token `t`: (reserve on the side of t, reserve on the other side, other
token), when `t` is one of the pool's tokens. -/
def pairReserves (p : Pair) (t : Token) : Option (ℚ × ℚ × Token) :=
  if p.tokenA = t then some (p.reserveA, p.reserveB, p.tokenB)
  else if p.tokenB = t then some (p.reserveB, p.reserveA, p.tokenA)
  else none

/-- Modelled from the spec: one EXACT_IN hop of the constant-product
exchange formula with the pool's proportional trading fee: input `x` of
`tin` yields `rOut·x·(1−fee) / (rIn + x·(1−fee))` of the other token; a
hop with insufficient reserve does not support the computation. -/
def hopAmountOut (fee : ℚ) (p : Pair) (tin : Token) (x : ℚ) :
    Option (Token × ℚ) :=
  match pairReserves p tin with
  | some (rIn, rOut, tout) =>
    let xf := x * (1 - fee)
    if 0 < rIn ∧ 0 < rOut ∧ 0 ≤ xf then
      some (tout, rOut * xf / (rIn + xf))
    else none
  | none => none

/-- Modelled from the spec: one EXACT_OUT hop of the constant-product
exchange formula: obtaining `y` of `tout` requires
`rIn·y / ((rOut − y)·(1−fee))` of the other token; a hop whose reserve
cannot supply `y` does not support the computation. -/
def hopAmountIn (fee : ℚ) (p : Pair) (tout : Token) (y : ℚ) :
    Option (Token × ℚ) :=
  match pairReserves p tout with
  | some (rOut, rIn, tin) =>
    if 0 < rIn ∧ 0 < rOut ∧ 0 ≤ y ∧ y < rOut ∧ fee < 1 then
      some (tin, rIn * y / ((rOut - y) * (1 - fee)))
    else none
  | none => none

/-- Modelled from the spec: composing the EXACT_IN hop formula along a
path, in token order. -/
def pathAmountOut (fee : ℚ) : Token → ℚ → List Pair → Option ℚ
  | _, x, [] => some x
  | tin, x, p :: rest =>
    match hopAmountOut fee p tin x with
    | some (tnext, y) => pathAmountOut fee tnext y rest
    | none => none

/-- Modelled from the spec: composing the EXACT_OUT hop formula along a
reversed path, from the output token backwards. -/
def pathAmountInRev (fee : ℚ) : Token → ℚ → List Pair → Option ℚ
  | _, y, [] => some y
  | tout, y, p :: rest =>
    match hopAmountIn fee p tout y with
    | some (tprev, x) => pathAmountInRev fee tprev x rest
    | none => none

/-- Modelled from the spec: depth-first enumeration of all simple paths
(no repeated token) from the current token to the target with edge count
at most the remaining hop budget, with path-so-far token-set pruning. -/
def simplePaths (pools : List Pair) (target : Token) :
    Token → List Token → Nat → List (List Pair)
  | _, _, 0 => []
  | cur, visited, h + 1 =>
    pools.foldr
      (fun p acc =>
        match pairOther p cur with
        | none => acc
        | some nxt =>
          if nxt ∈ visited then acc
          else if nxt = target then [p] :: acc
          else ((simplePaths pools target nxt (nxt :: visited) h).map
            (fun path => p :: path)) ++ acc)
      []

/-- The token sequence visited by a path starting at `tin`. -/
def tokensOfPath (tin : Token) : List Pair → List Token
  | [] => [tin]
  | p :: rest =>
    tin :: (match pairOther p tin with
            | some nxt => tokensOfPath nxt rest
            | none => [])

/-- The route of a trade (`trade.route`), whose `path` is the ordered
token sequence of the route. -/
structure Route where
  path : List Token
deriving DecidableEq

/-- A candidate trade: its route, the pools used hop by hop, and the
exact input and output amounts. -/
structure Trade where
  route : Route
  pairs : List Pair
  inputAmount : ℚ
  outputAmount : ℚ
deriving DecidableEq

/-- Modelled from the spec: the EXACT_IN candidate set — every simple
path within the hop bound whose hop-by-hop computation succeeds, with
its computed output amount. -/
def candidatesExactIn (fee : ℚ) (pools : List Pair) (tin tout : Token)
    (x : ℚ) (maxHops : Nat) : List Trade :=
  (simplePaths pools tout tin [tin] maxHops).filterMap (fun path =>
    (pathAmountOut fee tin x path).map (fun out =>
      { route := ⟨tokensOfPath tin path⟩, pairs := path,
        inputAmount := x, outputAmount := out }))

/-- Modelled from the spec: the EXACT_OUT candidate set — every simple
path within the hop bound whose backward hop-by-hop computation
succeeds, with its computed required input amount. -/
def candidatesExactOut (fee : ℚ) (pools : List Pair) (tin tout : Token)
    (y : ℚ) (maxHops : Nat) : List Trade :=
  (simplePaths pools tout tin [tin] maxHops).filterMap (fun path =>
    (pathAmountInRev fee tout y path.reverse).map (fun xin =>
      { route := ⟨tokensOfPath tin path⟩, pairs := path,
        inputAmount := xin, outputAmount := y }))

/-- Modelled from the spec: EXACT_IN ranking — `a` strictly outranks `b`
when it has larger output amount, or equal output amount over fewer
hops. -/
def betterSell (a b : Trade) : Prop :=
  b.outputAmount < a.outputAmount ∨
    (a.outputAmount = b.outputAmount ∧ a.pairs.length < b.pairs.length)

instance (a b : Trade) : Decidable (betterSell a b) := by
  unfold betterSell; infer_instance

/-- Modelled from the spec: EXACT_OUT ranking — `a` strictly outranks
`b` when it has smaller input amount, or equal input amount over fewer
hops. -/
def betterBuy (a b : Trade) : Prop :=
  a.inputAmount < b.inputAmount ∨
    (a.inputAmount = b.inputAmount ∧ a.pairs.length < b.pairs.length)

instance (a b : Trade) : Decidable (betterBuy a b) := by
  unfold betterBuy; infer_instance

/-- Modelled from the spec: deterministic selection of the top-ranked
candidate (the head of the fully sorted candidate list). -/
def selectBest {α : Type} (better : α → α → Prop) [DecidableRel better] :
    List α → Option α
  | [] => none
  | t :: ts => some (ts.foldl (fun b c => if better c b then c else b) t)

/-- Modelled from the spec: `Trade.bestTradeExactIn` of the SDK — the
best EXACT_IN trade over all candidate paths within the hop bound, or
none when no candidate survives. -/
def bestTradeExactIn (fee : ℚ) (pools : List Pair) (tin tout : Token)
    (x : ℚ) (maxHops : Nat) : Option Trade :=
  selectBest betterSell (candidatesExactIn fee pools tin tout x maxHops)

/-- Modelled from the spec: `Trade.bestTradeExactOut` of the SDK — the
best EXACT_OUT trade over all candidate paths within the hop bound, or
none when no candidate survives. -/
def bestTradeExactOut (fee : ℚ) (pools : List Pair) (tin tout : Token)
    (y : ℚ) (maxHops : Nat) : Option Trade :=
  selectBest betterBuy (candidatesExactOut fee pools tin tout y maxHops)

/-- Modelled from the spec: `trade.minimumAmountOut(tolerance)` of the
SDK — for a sell trade the slippage bound is
`minimumOut = outputAmount × (1 − tolerance)`. -/
def minimumAmountOut (t : Trade) (tolerance : ℚ) : ℚ :=
  t.outputAmount * (1 - tolerance)

/-- Modelled from the spec: `trade.maximumAmountIn(tolerance)` of the
SDK — for a buy trade the slippage bound is
`maximumIn = inputAmount × (1 + tolerance)`. -/
def maximumAmountIn (t : Trade) (tolerance : ℚ) : ℚ :=
  t.inputAmount * (1 + tolerance)

/-- The value returned by a successful quote (`ExpectedTrade`). -/
structure ExpectedTrade where
  trade : Trade
  expectedAmount : ℚ
deriving DecidableEq

/-- The `UniswapishPriceError` thrown when no trade pair is found,
carrying the input and output tokens interpolated into its message. -/
inductive QuoteErr where
  | priceError (inputToken outputToken : Token)
deriving DecidableEq

/-- `estimateSellTrade`: fetches the direct pair for the requested
tokens, runs the EXACT_IN best-trade search over the pre-seeded pools
plus that pair (`this._pools.concat([pair])`), and either fails with a
price error or applies the slippage bound to the best trade.  The
returned state is the instance state after the call. -/
def estimateSellTrade (env : Env) (fee tolerance : ℚ) (s : UniswapState)
    (baseToken quoteToken : Token) (amount : ℚ) :
    Except QuoteErr ExpectedTrade × UniswapState :=
  match bestTradeExactIn fee (s.pools ++ [env.fetchPairData baseToken quoteToken])
      baseToken quoteToken amount s.maxHops with
  | none => (.error (.priceError baseToken quoteToken), s)
  | some t => (.ok ⟨t, minimumAmountOut t tolerance⟩, s)

/-- `estimateBuyTrade`: fetches the direct pair for the requested
tokens, runs the EXACT_OUT best-trade search over the pre-seeded pools
plus that pair, and either fails with a price error or applies the
slippage bound to the best trade. -/
def estimateBuyTrade (env : Env) (fee tolerance : ℚ) (s : UniswapState)
    (quoteToken baseToken : Token) (amount : ℚ) :
    Except QuoteErr ExpectedTrade × UniswapState :=
  match bestTradeExactOut fee (s.pools ++ [env.fetchPairData quoteToken baseToken])
      quoteToken baseToken amount s.maxHops with
  | none => (.error (.priceError quoteToken baseToken), s)
  | some t => (.ok ⟨t, maximumAmountIn t tolerance⟩, s)

/-- The walk of `getTradeRoute` over the route's token path, tracking
`prevTokenSymbol`: a token whose symbol is undefined is skipped without
updating the previous symbol. -/
def routeWalk : Option String → List Token → List String
  | _, [] => []
  | prev, t :: rest =>
    match t.symbol with
    | some sym =>
      (match prev with
       | some prevSym => (prevSym ++ "-" ++ sym) :: routeWalk (some sym) rest
       | none => routeWalk (some sym) rest)
    | none => routeWalk prev rest

/-- `getTradeRoute`: emits one `BASE-QUOTE` descriptor per consecutive
pair of defined-symbol tokens of the trade's route path. -/
def getTradeRoute (trade : Trade) : List String :=
  routeWalk none trade.route.path

/-- Modelled from the spec: the external per-wallet nonce manager
(`ethereum.nonceManager`), exposing the next sequence number per wallet
address. -/
structure NonceManager where
  next : String → Nat

/-- `nonceManager.getNonce(walletAddress)`: acquire the next sequence
number for the wallet. -/
def getNonce (nm : NonceManager) (walletAddress : String) : Nat :=
  nm.next walletAddress

/-- Modelled from the spec: `nonceManager.commitNonce(walletAddress, n)`
— commit the used nonce, advancing the wallet's sequence number. -/
def commitNonce (nm : NonceManager) (walletAddress : String) (n : Nat) :
    NonceManager :=
  ⟨fun a => if a = walletAddress then n + 1 else nm.next a⟩

/-- Modelled from the spec: the result of `Router.swapCallParameters` —
the on-chain call description (method name, arguments, native value)
derived from the trade, recipient, deadline and slippage bound. -/
structure SwapParameters where
  methodName : String
  args : List String
  value : ℚ
deriving DecidableEq

/-- The transaction overrides submitted through the router contract
call: exactly one gas-pricing mode may populate its fields. -/
structure Transaction where
  methodName : String
  args : List String
  value : ℚ
  gasLimit : ℚ
  nonce : Nat
  gasPrice : Option ℚ
  maxFeePerGas : Option ℚ
  maxPriorityFeePerGas : Option ℚ
deriving DecidableEq

/-- The transaction built by `executeTrade` around the submission call:
when either fee-cap argument is supplied the fee-cap fields are passed
and no legacy `gasPrice` is set; otherwise only the legacy `gasPrice`,
scaled by `1e9`, is set.  (`toFixed(0)` only renders the numbers for the
wire and is not modelled.) -/
def buildTx (params : SwapParameters) (gasPrice gasLimit : ℚ) (nonce : Nat)
    (maxFeePerGas maxPriorityFeePerGas : Option ℚ) : Transaction :=
  if maxFeePerGas.isSome ∨ maxPriorityFeePerGas.isSome then
    { methodName := params.methodName, args := params.args,
      value := params.value, gasLimit := gasLimit, nonce := nonce,
      gasPrice := none, maxFeePerGas := maxFeePerGas,
      maxPriorityFeePerGas := maxPriorityFeePerGas }
  else
    { methodName := params.methodName, args := params.args,
      value := params.value, gasLimit := gasLimit, nonce := nonce,
      gasPrice := some (gasPrice * 1000000000), maxFeePerGas := none,
      maxPriorityFeePerGas := none }

/-- The submission outcome of the awaited router contract call: the
external chain either accepts the transaction or the call rejects. -/
structure ExecEnv where
  submitOk : Transaction → Bool

/-- The error surfaced when the awaited submission call rejects. -/
inductive ExecErr where
  | submitFailed
deriving DecidableEq

/-- The nonce used by a call to `executeTrade`: the caller-supplied one
when present, otherwise the one acquired from the per-wallet nonce
manager (`if (nonce === undefined) nonce = await ...getNonce(...)`). -/
def usedNonce (nm : NonceManager) (walletAddress : String)
    (nonceArg : Option Nat) : Nat :=
  match nonceArg with
  | some n => n
  | none => getNonce nm walletAddress

/-- `executeTrade` (nonce and submission logic): use the supplied nonce
if any, otherwise acquire one from the per-wallet nonce manager; build
the transaction in the selected gas-pricing mode; submit it; commit the
nonce only after a successful submission, and leave the nonce manager
untouched when the submission rejects.  `Router.swapCallParameters` is
modelled by the `params` argument; it is computed before any nonce is
acquired. -/
def executeTrade (env : ExecEnv) (nm : NonceManager)
    (walletAddress : String) (gasPrice gasLimit : ℚ)
    (nonceArg : Option Nat) (maxFeePerGas maxPriorityFeePerGas : Option ℚ)
    (params : SwapParameters) :
    Except ExecErr Transaction × NonceManager :=
  if env.submitOk (buildTx params gasPrice gasLimit
      (usedNonce nm walletAddress nonceArg) maxFeePerGas maxPriorityFeePerGas) then
    (.ok (buildTx params gasPrice gasLimit
        (usedNonce nm walletAddress nonceArg) maxFeePerGas maxPriorityFeePerGas),
      commitNonce nm walletAddress (usedNonce nm walletAddress nonceArg))
  else
    (.error .submitFailed, nm)

/-- A `Uniswap` instance as identified by the `getInstance` registry:
the constructor stores the chain and derives everything else from the
network, so an instance is identified by the `(chain, network)` pair it
was constructed with. -/
structure UniswapInst where
  chain : String
  network : String
deriving DecidableEq

/-- Lookup in the static `_instances` registry (a JS record keyed by
`chain + network`). -/
def lookupInst (reg : List (String × UniswapInst)) (key : String) :
    Option UniswapInst :=
  match reg with
  | [] => none
  | (k, i) :: rest => if k = key then some i else lookupInst rest key

/-- `getInstance(chain, network)`: the registry is keyed by the string
concatenation `chain + network`; a missing entry is lazily created by
the constructor, an existing entry is returned unchanged. -/
def getInstance (chain network : String)
    (reg : List (String × UniswapInst)) :
    UniswapInst × List (String × UniswapInst) :=
  match lookupInst reg (chain ++ network) with
  | some i => (i, reg)
  | none =>
    let i : UniswapInst := ⟨chain, network⟩
    (i, (chain ++ network, i) :: reg)

/-- Registry well-formedness: every stored instance was constructed from
a chain/network pair whose concatenation is its key.  This holds for the
empty registry and is preserved by `getInstance`. -/
def RegWF (reg : List (String × UniswapInst)) : Prop :=
  ∀ k i, lookupInst reg k = some i → i.chain ++ i.network = k

theorem foldBest_mem {α : Type} (better : α → α → Prop) [DecidableRel better]
    (l : List α) (a : α) :
    l.foldl (fun b c => if better c b then c else b) a ∈ a :: l := by
  induction l generalizing a with
  | nil => simp
  | cons c ts ih =>
    simp only [List.foldl_cons]
    by_cases hca : better c a
    · rw [if_pos hca]
      rcases List.mem_cons.mp (ih c) with h | h
      · simp [h]
      · simp [h]
    · rw [if_neg hca]
      rcases List.mem_cons.mp (ih a) with h | h
      · simp [h]
      · simp [h]

theorem foldBest_not_better {α : Type} (better : α → α → Prop)
    [DecidableRel better]
    (htrans : ∀ x y z, better x y → better y z → better x z)
    (hneg : ∀ x y z, ¬ better x y → ¬ better y z → ¬ better x z)
    (hirr : ∀ x, ¬ better x x)
    (l : List α) (a : α) :
    ∀ x ∈ a :: l, ¬ better x (l.foldl (fun b c => if better c b then c else b) a) := by
  induction l generalizing a with
  | nil =>
    intro x hx
    simp only [List.mem_singleton] at hx
    subst hx
    simpa using hirr x
  | cons c ts ih =>
    intro x hx
    simp only [List.foldl_cons]
    have IH := ih (if better c a then c else a)
    rcases List.mem_cons.mp hx with hx | hx
    · subst hx
      by_cases hca : better c x
      · rw [if_pos hca] at IH ⊢
        intro hxr
        exact IH c (List.mem_cons_self c ts) (htrans c x _ hca hxr)
      · rw [if_neg hca] at IH ⊢
        exact IH x (List.mem_cons_self x ts)
    · rcases List.mem_cons.mp hx with hx | hx
      · subst hx
        by_cases hca : better x a
        · rw [if_pos hca] at IH ⊢
          exact IH x (List.mem_cons_self x ts)
        · rw [if_neg hca] at IH ⊢
          exact hneg x a _ hca (IH a (List.mem_cons_self a ts))
      · exact IH x (List.mem_cons_of_mem _ hx)

theorem selectBest_mem {α : Type} (better : α → α → Prop) [DecidableRel better]
    (l : List α) (t : α) (h : selectBest better l = some t) : t ∈ l := by
  cases l with
  | nil => simp [selectBest] at h
  | cons a ts =>
    simp only [selectBest, Option.some.injEq] at h
    have := foldBest_mem better ts a
    rwa [h] at this

theorem selectBest_opt {α : Type} (better : α → α → Prop) [DecidableRel better]
    (htrans : ∀ x y z, better x y → better y z → better x z)
    (hneg : ∀ x y z, ¬ better x y → ¬ better y z → ¬ better x z)
    (hirr : ∀ x, ¬ better x x)
    (l : List α) (t : α) (h : selectBest better l = some t) :
    ∀ x ∈ l, ¬ better x t := by
  cases l with
  | nil => simp
  | cons a ts =>
    simp only [selectBest, Option.some.injEq] at h
    intro x hx
    have := foldBest_not_better better htrans hneg hirr ts a x hx
    rwa [h] at this

theorem betterSell_trans : ∀ x y z, betterSell x y → betterSell y z → betterSell x z := by
  intro x y z hxy hyz
  rcases hxy with h1 | ⟨h1, h1l⟩ <;> rcases hyz with h2 | ⟨h2, h2l⟩
  · exact Or.inl (lt_trans h2 h1)
  · exact Or.inl (h2 ▸ h1)
  · exact Or.inl (h1 ▸ h2)
  · exact Or.inr ⟨h1.trans h2, lt_trans h1l h2l⟩

theorem betterSell_neg_trans :
    ∀ x y z, ¬ betterSell x y → ¬ betterSell y z → ¬ betterSell x z := by
  intro x y z hxy hyz hxz
  have hxy1 : x.outputAmount ≤ y.outputAmount := by
    by_contra h
    exact hxy (Or.inl (lt_of_not_le h))
  have hyz1 : y.outputAmount ≤ z.outputAmount := by
    by_contra h
    exact hyz (Or.inl (lt_of_not_le h))
  rcases hxz with h | ⟨he, hl⟩
  · exact absurd h (not_lt_of_le (hxy1.trans hyz1))
  · have hxy2 : y.outputAmount = x.outputAmount := le_antisymm (he ▸ hyz1) hxy1
    have hyz2 : y.outputAmount = z.outputAmount := hxy2.trans he
    have hl1 : ¬ x.pairs.length < y.pairs.length := fun hc => hxy (Or.inr ⟨hxy2.symm, hc⟩)
    have hl2 : ¬ y.pairs.length < z.pairs.length := fun hc => hyz (Or.inr ⟨hyz2, hc⟩)
    omega

theorem betterSell_irrefl : ∀ x, ¬ betterSell x x := by
  intro x h
  rcases h with h | ⟨_, h⟩
  · exact lt_irrefl _ h
  · exact lt_irrefl _ h

theorem betterBuy_trans : ∀ x y z, betterBuy x y → betterBuy y z → betterBuy x z := by
  intro x y z hxy hyz
  rcases hxy with h1 | ⟨h1, h1l⟩ <;> rcases hyz with h2 | ⟨h2, h2l⟩
  · exact Or.inl (lt_trans h1 h2)
  · exact Or.inl (h2 ▸ h1)
  · exact Or.inl (h1 ▸ h2)
  · exact Or.inr ⟨h1.trans h2, lt_trans h1l h2l⟩

theorem betterBuy_neg_trans :
    ∀ x y z, ¬ betterBuy x y → ¬ betterBuy y z → ¬ betterBuy x z := by
  intro x y z hxy hyz hxz
  have hxy1 : y.inputAmount ≤ x.inputAmount := by
    by_contra h
    exact hxy (Or.inl (lt_of_not_le h))
  have hyz1 : z.inputAmount ≤ y.inputAmount := by
    by_contra h
    exact hyz (Or.inl (lt_of_not_le h))
  rcases hxz with h | ⟨he, hl⟩
  · exact absurd h (not_lt_of_le (hyz1.trans hxy1))
  · have hxy2 : x.inputAmount = y.inputAmount := le_antisymm (he ▸ hyz1) hxy1
    have hyz2 : y.inputAmount = z.inputAmount := hxy2.symm.trans he
    have hl1 : ¬ x.pairs.length < y.pairs.length := fun hc => hxy (Or.inr ⟨hxy2, hc⟩)
    have hl2 : ¬ y.pairs.length < z.pairs.length := fun hc => hyz (Or.inr ⟨hyz2, hc⟩)
    omega

theorem betterBuy_irrefl : ∀ x, ¬ betterBuy x x := by
  intro x h
  rcases h with h | ⟨_, h⟩
  · exact lt_irrefl _ h
  · exact lt_irrefl _ h

/-- The rightmost token of a token-info list whose address matches,
built as the connector token: the value the loading loop leaves at a
given key. -/
def lastTok (chainId : Nat) (l : List TokenInfo) (a : String) : Option Token :=
  match l with
  | [] => none
  | i :: rest =>
    match lastTok chainId rest a with
    | some t => some t
    | none => if i.address = a then some (tokenOfInfo chainId i) else none

theorem tokenLoad_apply (m : String → Option Token) (chainId : Nat)
    (l : List TokenInfo) (a : String) :
    tokenLoad m chainId l a =
      match lastTok chainId l a with
      | some t => some t
      | none => m a := by
  induction l generalizing m with
  | nil => rfl
  | cons i rest ih =>
    show tokenLoad (recordSet m i.address (tokenOfInfo chainId i)) chainId rest a = _
    rw [ih]
    cases h : lastTok chainId rest a with
    | some t => simp [lastTok, h]
    | none =>
      simp only [lastTok, h, recordSet]
      by_cases ha : i.address = a
      · simp [ha]
      · have ha2 : ¬ a = i.address := fun hc => ha hc.symm
        simp [ha, ha2]

theorem tokenLoad_idem (m : String → Option Token) (chainId : Nat)
    (l : List TokenInfo) :
    tokenLoad (tokenLoad m chainId l) chainId l = tokenLoad m chainId l := by
  funext a
  rw [tokenLoad_apply, tokenLoad_apply]
  cases h : lastTok chainId l a with
  | some t => rfl
  | none => rfl

theorem routeWalk_defined (prev : String) (ts : List Token)
    (syms : List String) (h : ts.map Token.symbol = syms.map some) :
    routeWalk (some prev) ts =
      ((prev :: syms).zip syms).map (fun p => p.1 ++ "-" ++ p.2) := by
  induction ts generalizing prev syms with
  | nil =>
    cases syms with
    | nil => rfl
    | cons s rest => simp at h
  | cons t rest ih =>
    cases syms with
    | nil => simp at h
    | cons s srest =>
      simp only [List.map_cons, List.cons.injEq] at h
      rw [show routeWalk (some prev) (t :: rest) =
        (match t.symbol with
         | some sym => (prev ++ "-" ++ sym) :: routeWalk (some sym) rest
         | none => routeWalk (some prev) rest) from rfl]
      rw [h.1]
      rw [List.zip_cons_cons, List.map_cons]
      exact congrArg (List.cons _) (ih s srest h.2)

theorem lookupInst_getInstance (c n : String)
    (reg : List (String × UniswapInst)) :
    lookupInst (getInstance c n reg).2 (c ++ n) = some (getInstance c n reg).1 := by
  unfold getInstance
  cases h : lookupInst reg (c ++ n) with
  | some i => simp [h]
  | none => simp [h, lookupInst]

theorem getInstance_key (c n : String) (reg : List (String × UniswapInst))
    (hwf : RegWF reg) :
    (getInstance c n reg).1.chain ++ (getInstance c n reg).1.network = c ++ n := by
  unfold getInstance
  cases h : lookupInst reg (c ++ n) with
  | some i => simpa using hwf (c ++ n) i h
  | none => simp

theorem getInstance_wf (c n : String) (reg : List (String × UniswapInst))
    (hwf : RegWF reg) : RegWF (getInstance c n reg).2 := by
  unfold getInstance
  cases h : lookupInst reg (c ++ n) with
  | some i => simpa using hwf
  | none =>
    simp only
    intro k i hk
    simp only [lookupInst] at hk
    by_cases hkey : c ++ n = k
    · rw [if_pos hkey] at hk
      cases hk
      simpa using hkey
    · rw [if_neg hkey] at hk
      exact hwf k i hk

/-- Concrete chain token info used by the witness scenarios. -/
def infoA : TokenInfo := ⟨"0xA", 18, "AAA", "TokenA"⟩

/-- Concrete chain token info used by the witness scenarios. -/
def infoB : TokenInfo := ⟨"0xB", 18, "BBB", "TokenB"⟩

/-- Concrete token used by the witness scenarios. -/
def tokA : Token := tokenOfInfo 1 infoA

/-- Concrete token used by the witness scenarios. -/
def tokB : Token := tokenOfInfo 1 infoB

/-- Concrete token used by the witness scenarios. -/
def tokC : Token := ⟨1, "0xC", 18, some "CCC", some "TokenC"⟩

/-- Concrete token with an undefined symbol, as the SDK constructor
allows. -/
def tokN : Token := ⟨1, "0xN", 18, none, none⟩

/-- Concrete external environment for the witness scenarios: two known
symbols, an existing factory pair, and a pair fetcher with reserves
1000/1000. -/
def envW : Env :=
  { getTokenForSymbol := fun s =>
      if s = "AAA" then some infoA
      else if s = "BBB" then some infoB
      else none,
    getPair := fun _ _ => "0x1111111111111111111111111111111111111111",
    fetchPairData := fun a b => ⟨a, b, 1000, 1000⟩,
    chainReady := true,
    storedTokenList := [infoA, infoB] }

/-- Concrete fresh instance state for the witness scenarios. -/
def stateW : UniswapState :=
  ⟨"ethereum", 1, ["AAA-BBB"], 3, fun _ => none, [], false⟩

/-- The pair the witness environment fetches for `tokA`/`tokB`. -/
def pairABW : Pair := ⟨tokA, tokB, 1000, 1000⟩

/-- Fallback trade for total projections out of `Except`. -/
def defaultTrade : Trade := ⟨⟨[]⟩, [], 0, 0⟩

/-- The quote returned by the witness sell scenario. -/
def etW : ExpectedTrade :=
  match (estimateSellTrade envW (3/1000) (1/200) stateW tokA tokB 10).1 with
  | .ok et => et
  | .error _ => ⟨defaultTrade, 0⟩

/-- The quote returned by the witness buy scenario. -/
def ebW : ExpectedTrade :=
  match (estimateBuyTrade envW (3/1000) (1/200) stateW tokB tokA 10).1 with
  | .ok eb => eb
  | .error _ => ⟨defaultTrade, 0⟩

/-- External environment with no route between the witness tokens: the
direct-pair fetch yields a pool not incident to them. -/
def envNoRoute : Env :=
  { envW with fetchPairData := fun _ _ => ⟨tokC, tokC, 0, 0⟩ }

/-- Claim C1: for every sell (EXACT_IN) trade quoted by
`estimateSellTrade` with a valid tolerance `T`, the returned
`expectedAmount` equals `outputAmount × (1 − T)` exactly; and for every
buy (EXACT_OUT) trade quoted by `estimateBuyTrade`, the returned
`expectedAmount` equals `inputAmount × (1 + T)` exactly. -/
theorem estimate_slippage_exact (env : Env) (fee tolerance : ℚ)
    (s : UniswapState) (b q : Token) (x y : ℚ)
    (_htol : 0 ≤ tolerance ∧ tolerance < 1) :
    (∀ et, (estimateSellTrade env fee tolerance s b q x).1 = .ok et →
      et.expectedAmount = et.trade.outputAmount * (1 - tolerance)) ∧
    (∀ eb, (estimateBuyTrade env fee tolerance s q b y).1 = .ok eb →
      eb.expectedAmount = eb.trade.inputAmount * (1 + tolerance)) := by
  constructor
  · intro et het
    unfold estimateSellTrade at het
    split at het
    · simp at het
    · simp only [Except.ok.injEq] at het
      subst het
      rfl
  · intro eb heb
    unfold estimateBuyTrade at heb
    split at heb
    · simp at heb
    · simp only [Except.ok.injEq] at heb
      subst heb
      rfl

unseal Rat.add Rat.sub Rat.mul Rat.inv in
theorem estimate_slippage_exact_witness :
    (0 ≤ (1/200 : ℚ) ∧ (1/200 : ℚ) < 1) ∧
    etW.expectedAmount = etW.trade.outputAmount * (1 - 1/200) ∧
    ebW.expectedAmount = ebW.trade.inputAmount * (1 + 1/200) := by
  have h := estimate_slippage_exact envW (3/1000) (1/200) stateW tokA tokB
    10 10 (by norm_num)
  exact ⟨by norm_num, h.1 etW (by rfl), h.2 ebW (by rfl)⟩

/-- Claim C5: whenever no candidate trade exists within the max-hops
bound, the quote fails with a price error naming the input and output
tokens (the `UniswapishPriceError` value), returns no trade, and leaves
the instance state unchanged (request-scoped, non-fatal). -/
theorem estimate_no_route_price_error (env : Env) (fee tolerance : ℚ)
    (s : UniswapState) (b q : Token) (x y : ℚ)
    (hsell : candidatesExactIn fee (s.pools ++ [env.fetchPairData b q])
      b q x s.maxHops = [])
    (hbuy : candidatesExactOut fee (s.pools ++ [env.fetchPairData q b])
      q b y s.maxHops = []) :
    estimateSellTrade env fee tolerance s b q x =
      (.error (.priceError b q), s) ∧
    estimateBuyTrade env fee tolerance s q b y =
      (.error (.priceError q b), s) := by
  constructor
  · unfold estimateSellTrade bestTradeExactIn
    rw [hsell]
    rfl
  · unfold estimateBuyTrade bestTradeExactOut
    rw [hbuy]
    rfl

theorem estimate_no_route_price_error_witness :
    candidatesExactIn (3/1000)
      (stateW.pools ++ [envNoRoute.fetchPairData tokA tokB]) tokA tokB
      10 stateW.maxHops = [] ∧
    estimateSellTrade envNoRoute (3/1000) (1/200) stateW tokA tokB 10 =
      (.error (.priceError tokA tokB), stateW) := by
  have h := estimate_no_route_price_error envNoRoute (3/1000) (1/200)
    stateW tokA tokB 10 10 rfl rfl
  exact ⟨rfl, h.1⟩

/-- Claim C8: no quote request mutates the instance: both
`estimateSellTrade` and `estimateBuyTrade` return the instance state
(pool list, token list and all other fields) unchanged, whether the
quote succeeds or fails with a price error. -/
theorem estimate_preserves_state (env : Env) (fee tolerance : ℚ)
    (s : UniswapState) (b q : Token) (x y : ℚ) :
    (estimateSellTrade env fee tolerance s b q x).2 = s ∧
    (estimateBuyTrade env fee tolerance s q b y).2 = s := by
  constructor
  · unfold estimateSellTrade
    split <;> rfl
  · unfold estimateBuyTrade
    split <;> rfl

/-- Claim C3: if either fee-cap argument is supplied, the submitted
transaction carries the fee-cap fields and no legacy `gasPrice`;
otherwise it carries only the legacy `gasPrice` scaled by `1e9`; no
submitted transaction ever populates both gas-pricing modes, and
`executeTrade` submits exactly the transaction built this way. -/
theorem executeTrade_gas_mode_exclusive (params : SwapParameters)
    (gasPrice gasLimit : ℚ) (nonce : Nat) (mf mp : Option ℚ) :
    (mf.isSome = true ∨ mp.isSome = true →
      (buildTx params gasPrice gasLimit nonce mf mp).gasPrice = none ∧
      (buildTx params gasPrice gasLimit nonce mf mp).maxFeePerGas = mf ∧
      (buildTx params gasPrice gasLimit nonce mf mp).maxPriorityFeePerGas = mp) ∧
    (mf = none → mp = none →
      (buildTx params gasPrice gasLimit nonce mf mp).gasPrice =
        some (gasPrice * 1000000000) ∧
      (buildTx params gasPrice gasLimit nonce mf mp).maxFeePerGas = none ∧
      (buildTx params gasPrice gasLimit nonce mf mp).maxPriorityFeePerGas = none) ∧
    (¬((buildTx params gasPrice gasLimit nonce mf mp).gasPrice.isSome = true ∧
      ((buildTx params gasPrice gasLimit nonce mf mp).maxFeePerGas.isSome = true ∨
       (buildTx params gasPrice gasLimit nonce mf mp).maxPriorityFeePerGas.isSome = true))) ∧
    (∀ env nm w tx,
      (executeTrade env nm w gasPrice gasLimit (some nonce) mf mp params).1 = .ok tx →
      tx = buildTx params gasPrice gasLimit nonce mf mp) := by
  refine ⟨?_, ?_, ?_, ?_⟩
  · intro hcap
    unfold buildTx
    rw [if_pos hcap]
    exact ⟨rfl, rfl, rfl⟩
  · intro hmf hmp
    subst hmf
    subst hmp
    unfold buildTx
    rw [if_neg (by simp)]
    exact ⟨rfl, rfl, rfl⟩
  · by_cases hcap : mf.isSome = true ∨ mp.isSome = true
    · unfold buildTx
      rw [if_pos hcap]
      rintro ⟨h1, _⟩
      simp at h1
    · unfold buildTx
      rw [if_neg hcap]
      rintro ⟨_, h2 | h2⟩ <;> simp at h2
  · intro env nm w tx h
    unfold executeTrade at h
    split at h
    · simp only [Except.ok.injEq] at h
      exact h.symm
    · simp at h

theorem executeTrade_gas_mode_exclusive_witness :
    ((some (2:ℚ)).isSome = true ∨ (none : Option ℚ).isSome = true) ∧
    (buildTx ⟨"swapExactTokensForTokens", [], 0⟩ 1 21000 7 (some 2) none).gasPrice
      = none ∧
    (buildTx ⟨"swapExactTokensForTokens", [], 0⟩ 1 21000 7 (some 2) none).maxFeePerGas
      = some 2 := by
  have h := executeTrade_gas_mode_exclusive ⟨"swapExactTokensForTokens", [], 0⟩
    1 21000 7 (some 2) none
  have hc : (some (2:ℚ)).isSome = true ∨ (none : Option ℚ).isSome = true :=
    Or.inl rfl
  exact ⟨hc, (h.1 hc).1, (h.1 hc).2.1⟩

/-- Claim C2: `executeTrade` uses the caller-supplied nonce unchanged
when present and otherwise acquires the next nonce from the per-wallet
nonce manager; the nonce is committed exactly when the submission
succeeds, and a failed submission leaves the nonce manager unchanged so
the same nonce is acquired by a subsequent call. -/
theorem executeTrade_nonce_lifecycle (env : ExecEnv) (nm : NonceManager)
    (w : String) (g gl : ℚ) (nonceArg : Option Nat) (mf mp : Option ℚ)
    (params : SwapParameters) :
    (∀ n, nonceArg = some n → usedNonce nm w nonceArg = n) ∧
    (nonceArg = none → usedNonce nm w nonceArg = getNonce nm w) ∧
    (∀ tx, (executeTrade env nm w g gl nonceArg mf mp params).1 = .ok tx →
      tx.nonce = usedNonce nm w nonceArg ∧
      (executeTrade env nm w g gl nonceArg mf mp params).2 =
        commitNonce nm w (usedNonce nm w nonceArg)) ∧
    (∀ e, (executeTrade env nm w g gl nonceArg mf mp params).1 = .error e →
      (executeTrade env nm w g gl nonceArg mf mp params).2 = nm ∧
      getNonce (executeTrade env nm w g gl nonceArg mf mp params).2 w =
        getNonce nm w) := by
  refine ⟨?_, ?_, ?_, ?_⟩
  · intro n hn
    subst hn
    rfl
  · intro hn
    subst hn
    rfl
  · intro tx h
    unfold executeTrade at h ⊢
    split at h
    · simp only [Except.ok.injEq] at h
      subst h
      rename_i hok
      rw [if_pos hok]
      constructor
      · unfold buildTx
        split <;> rfl
      · rfl
    · simp at h
  · intro e h
    unfold executeTrade at h ⊢
    split at h
    · simp at h
    · rename_i hfail
      rw [if_neg hfail]
      exact ⟨rfl, rfl⟩

/-- Nonce manager used by the execution witnesses. -/
def nmW : NonceManager := ⟨fun _ => 5⟩

/-- Submission endpoint that accepts every transaction. -/
def envOkW : ExecEnv := ⟨fun _ => true⟩

/-- Submission endpoint that rejects every transaction. -/
def envFailW : ExecEnv := ⟨fun _ => false⟩

/-- Swap-call parameters used by the execution witnesses. -/
def paramsW : SwapParameters := ⟨"swapExactTokensForTokens", [], 0⟩

theorem executeTrade_nonce_lifecycle_witness :
    usedNonce nmW "0xW" (some 9) = 9 ∧
    (executeTrade envOkW nmW "0xW" 1 21000 (some 9) none none paramsW).2 =
      commitNonce nmW "0xW" 9 ∧
    (executeTrade envFailW nmW "0xW" 1 21000 none none none paramsW).2 = nmW := by
  refine ⟨(executeTrade_nonce_lifecycle envOkW nmW "0xW" 1 21000 (some 9)
    none none paramsW).1 9 rfl, ?_, ?_⟩
  · exact ((executeTrade_nonce_lifecycle envOkW nmW "0xW" 1 21000 (some 9)
      none none paramsW).2.2.1 (buildTx paramsW 1 21000 9 none none) rfl).2
  · exact ((executeTrade_nonce_lifecycle envFailW nmW "0xW" 1 21000 none
      none none paramsW).2.2.2 .submitFailed rfl).1

/-- Claim C4: `initDirectPools` processes every pool-spec entry
independently — the final pool list is the initial one plus exactly the
per-entry successes, in order, so no entry failure aborts
initialization — and each entry is classified as the source does: a
split that is not exactly two parts warns malformed; an unresolved base
or quote symbol warns naming the failing side; a zero factory pair
address warns no-direct-pool; any other entry yields the fetched pair
(provided the factory address is JS-truthy, i.e. nonempty). -/
theorem initDirectPools_entry_independent (env : Env) (s : UniswapState) :
    ((initDirectPools env s).1.pools =
      s.pools ++
        s.poolStrings.filterMap (fun e => (processPoolString env s.chainId e).1)) ∧
    (∀ e, (splitDash e).length ≠ 2 →
      processPoolString env s.chainId e = (none, [.malformed e])) ∧
    (∀ e b q, splitDash e = [b, q] → env.getTokenForSymbol b = none →
      processPoolString env s.chainId e = (none, [.unknownBase b])) ∧
    (∀ e b q bi, splitDash e = [b, q] → env.getTokenForSymbol b = some bi →
      env.getTokenForSymbol q = none →
      processPoolString env s.chainId e = (none, [.unknownQuote q])) ∧
    (∀ e b q bi qi, splitDash e = [b, q] →
      env.getTokenForSymbol b = some bi → env.getTokenForSymbol q = some qi →
      env.getPair (tokenOfInfo s.chainId bi).address
        (tokenOfInfo s.chainId qi).address = zeroAddress →
      processPoolString env s.chainId e = (none, [.noDirectPool b q])) ∧
    (∀ e b q bi qi, splitDash e = [b, q] →
      env.getTokenForSymbol b = some bi → env.getTokenForSymbol q = some qi →
      env.getPair (tokenOfInfo s.chainId bi).address
        (tokenOfInfo s.chainId qi).address ≠ zeroAddress →
      env.getPair (tokenOfInfo s.chainId bi).address
        (tokenOfInfo s.chainId qi).address ≠ "" →
      processPoolString env s.chainId e =
        (some (env.fetchPairData (tokenOfInfo s.chainId bi)
          (tokenOfInfo s.chainId qi)), [])) := by
  refine ⟨rfl, ?_, ?_, ?_, ?_, ?_⟩
  · intro e he
    unfold processPoolString
    rcases h : splitDash e with _ | ⟨b, _ | ⟨q, _ | ⟨r, rest⟩⟩⟩
    · rfl
    · rfl
    · exact absurd (by rw [h]; rfl) he
    · rfl
  · intro e b q hsplit hbase
    simp [processPoolString, hsplit, hbase]
  · intro e b q bi hsplit hbase hquote
    simp [processPoolString, hsplit, hbase, hquote]
  · intro e b q bi qi hsplit hbase hquote haddr
    simp [processPoolString, hsplit, hbase, hquote, getPool, haddr]
  · intro e b q bi qi hsplit hbase hquote haddr hne
    simp [processPoolString, hsplit, hbase, hquote, getPool, haddr, hne]

/-- Fresh instance state whose pool-spec list has one malformed and one
valid entry, as in the specification's example. -/
def stateW4 : UniswapState :=
  ⟨"ethereum", 1, ["ONLYONE", "AAA-BBB"], 3, fun _ => none, [], false⟩

unseal Rat.add Rat.sub Rat.mul Rat.inv in
theorem initDirectPools_entry_independent_witness :
    (splitDash "ONLYONE").length ≠ 2 ∧
    processPoolString envW 1 "ONLYONE" = (none, [.malformed "ONLYONE"]) ∧
    (initDirectPools envW stateW4).1.pools = [pairABW] := by
  have h := initDirectPools_entry_independent envW stateW4
  refine ⟨by decide, h.2.1 "ONLYONE" (by decide), ?_⟩
  rw [h.1]
  rfl

/-- Claim C7: the trade returned by a quote is one of the candidates
within the max-hops bound and is optimal among them — maximal output
amount for EXACT_IN, minimal input amount for EXACT_OUT — with ties of
equal amount resolved in favour of fewer hops. -/
theorem estimate_best_trade_optimal (env : Env) (fee tolerance : ℚ)
    (s : UniswapState) (b q : Token) (x y : ℚ) :
    (∀ et, (estimateSellTrade env fee tolerance s b q x).1 = .ok et →
      et.trade ∈ candidatesExactIn fee (s.pools ++ [env.fetchPairData b q])
        b q x s.maxHops ∧
      ∀ t ∈ candidatesExactIn fee (s.pools ++ [env.fetchPairData b q])
          b q x s.maxHops,
        t.outputAmount ≤ et.trade.outputAmount ∧
          (t.outputAmount = et.trade.outputAmount →
            et.trade.pairs.length ≤ t.pairs.length)) ∧
    (∀ eb, (estimateBuyTrade env fee tolerance s q b y).1 = .ok eb →
      eb.trade ∈ candidatesExactOut fee (s.pools ++ [env.fetchPairData q b])
        q b y s.maxHops ∧
      ∀ t ∈ candidatesExactOut fee (s.pools ++ [env.fetchPairData q b])
          q b y s.maxHops,
        eb.trade.inputAmount ≤ t.inputAmount ∧
          (t.inputAmount = eb.trade.inputAmount →
            eb.trade.pairs.length ≤ t.pairs.length)) := by
  constructor
  · intro et het
    unfold estimateSellTrade at het
    split at het
    · simp at het
    · rename_i t hm
      simp only [Except.ok.injEq] at het
      subst het
      unfold bestTradeExactIn at hm
      refine ⟨selectBest_mem betterSell _ t hm, ?_⟩
      intro t' ht'
      have hnb := selectBest_opt betterSell betterSell_trans
        betterSell_neg_trans betterSell_irrefl _ t hm t' ht'
      constructor
      · by_contra hlt
        exact hnb (Or.inl (lt_of_not_le hlt))
      · intro heq
        by_contra hlen
        exact hnb (Or.inr ⟨heq, lt_of_not_le hlen⟩)
  · intro eb heb
    unfold estimateBuyTrade at heb
    split at heb
    · simp at heb
    · rename_i t hm
      simp only [Except.ok.injEq] at heb
      subst heb
      unfold bestTradeExactOut at hm
      refine ⟨selectBest_mem betterBuy _ t hm, ?_⟩
      intro t' ht'
      have hnb := selectBest_opt betterBuy betterBuy_trans
        betterBuy_neg_trans betterBuy_irrefl _ t hm t' ht'
      constructor
      · by_contra hlt
        exact hnb (Or.inl (lt_of_not_le hlt))
      · intro heq
        by_contra hlen
        exact hnb (Or.inr ⟨heq, lt_of_not_le hlen⟩)

unseal Rat.add Rat.sub Rat.mul Rat.inv in
theorem estimate_best_trade_optimal_witness :
    etW.trade ∈ candidatesExactIn (3/1000)
      (stateW.pools ++ [envW.fetchPairData tokA tokB]) tokA tokB 10
      stateW.maxHops := by
  exact ((estimate_best_trade_optimal envW (3/1000) (1/200) stateW tokA tokB
    10 10).1 etW (by rfl)).1

/-- A trade whose route path contains a token with an undefined
symbol. -/
def tradeNoSym : Trade := ⟨⟨[tokA, tokN, tokC]⟩, [], 0, 0⟩

/-- Counterexample to claim C9 as stated: a route path of three tokens
whose middle token has an undefined symbol yields a single bridged
descriptor, not one descriptor per consecutive token pair. -/
theorem getTradeRoute_skips_undefined_symbol :
    tradeNoSym.route.path.length - 1 = 2 ∧
    getTradeRoute tradeNoSym = ["AAA-CCC"] ∧
    (getTradeRoute tradeNoSym).length ≠ 2 := by decide

/-- Claim C9 (amended): for a trade whose route path consists of tokens
that all have defined symbols, `getTradeRoute` returns one
`SYMBOL-SYMBOL` descriptor per consecutive token pair, in route order;
a token with an undefined symbol is skipped, bridging its neighbours
into a single descriptor. -/
theorem getTradeRoute_consecutive_descriptors (trade : Trade)
    (syms : List String)
    (h : trade.route.path.map Token.symbol = syms.map some) :
    getTradeRoute trade =
      (syms.zip syms.tail).map (fun p => p.1 ++ "-" ++ p.2) := by
  unfold getTradeRoute
  cases hp : trade.route.path with
  | nil =>
    cases syms with
    | nil => rfl
    | cons s srest => rw [hp] at h; simp at h
  | cons t rest =>
    cases syms with
    | nil => rw [hp] at h; simp at h
    | cons s srest =>
      rw [hp] at h
      simp only [List.map_cons, List.cons.injEq] at h
      have hw : routeWalk none (t :: rest) = routeWalk (some s) rest := by
        show (match t.symbol with
              | some sym =>
                (match (none : Option String) with
                 | some prevSym =>
                   (prevSym ++ "-" ++ sym) :: routeWalk (some sym) rest
                 | none => routeWalk (some sym) rest)
              | none => routeWalk none rest) = _
        rw [h.1]
      rw [hw, routeWalk_defined s rest srest h.2]
      rfl

/-- A trade whose route path is three tokens with defined symbols. -/
def trade3 : Trade := ⟨⟨[tokA, tokB, tokC]⟩, [], 0, 0⟩

theorem getTradeRoute_consecutive_descriptors_witness :
    trade3.route.path.map Token.symbol =
      ["AAA", "BBB", "CCC"].map some ∧
    getTradeRoute trade3 = ["AAA-BBB", "BBB-CCC"] := by
  refine ⟨by decide, ?_⟩
  have h := getTradeRoute_consecutive_descriptors trade3
    ["AAA", "BBB", "CCC"] (by decide)
  rw [h]
  rfl

/-- The second lookup of `getInstance` hits an existing entry
unchanged. -/
theorem getInstance_hit (c n : String) (reg : List (String × UniswapInst))
    (i : UniswapInst) (h : lookupInst reg (c ++ n) = some i) :
    getInstance c n reg = (i, reg) := by
  unfold getInstance
  rw [h]

/-- Claim C10: the `getInstance` registry is keyed by the concatenation
`chain + network`: starting from any well-formed registry, two
successive calls return the same instance exactly when the
concatenations of their arguments coincide — so distinct pairs with
equal concatenations share one instance, and equal pairs reuse the
lazily created one. -/
theorem getInstance_keyed_by_concat (reg : List (String × UniswapInst))
    (hwf : RegWF reg) (c1 n1 c2 n2 : String) :
    (getInstance c2 n2 (getInstance c1 n1 reg).2).1 =
      (getInstance c1 n1 reg).1 ↔ c1 ++ n1 = c2 ++ n2 := by
  constructor
  · intro h
    have k1 := getInstance_key c1 n1 reg hwf
    have k2 := getInstance_key c2 n2 _ (getInstance_wf c1 n1 reg hwf)
    rw [← k1, ← k2, h]
  · intro h
    have hl2 : lookupInst (getInstance c1 n1 reg).2 (c2 ++ n2) =
        some (getInstance c1 n1 reg).1 := by
      rw [← h]
      exact lookupInst_getInstance c1 n1 reg
    rw [getInstance_hit c2 n2 _ _ hl2]

theorem getInstance_keyed_by_concat_witness :
    RegWF ([] : List (String × UniswapInst)) ∧
    (getInstance "a" "bc"
        (getInstance "ab" "c" ([] : List (String × UniswapInst))).2).1 =
      (getInstance "ab" "c" ([] : List (String × UniswapInst))).1 := by
  have hwf : RegWF ([] : List (String × UniswapInst)) := by
    intro k i h
    simp [lookupInst] at h
  exact ⟨hwf,
    (getInstance_keyed_by_concat [] hwf "ab" "c" "a" "bc").mpr rfl⟩

/-- The instance state after a first `init` on the fresh witness
state. -/
def initOnceW : UniswapState :=
  match init envW stateW with
  | .ok r => r.1
  | .error _ => stateW

/-- The instance state after calling `init` a second time. -/
def initTwiceW : UniswapState :=
  match init envW initOnceW with
  | .ok r => r.1
  | .error _ => initOnceW

/-- Counterexample to claim C6 as stated: on a ready instance a second
`init` duplicates every fetched direct pool in `_pools`. -/
theorem init_not_idempotent :
    initOnceW.pools = [pairABW] ∧
    initTwiceW.pools = [pairABW, pairABW] ∧
    initTwiceW.pools ≠ initOnceW.pools := by decide

/-- The warnings of the first witness `init`. -/
def w1W : List PoolWarning :=
  match init envW stateW with
  | .ok r => r.2
  | .error _ => []

/-- The warnings of the second witness `init`. -/
def w2W : List PoolWarning :=
  match init envW initOnceW with
  | .ok r => r.2
  | .error _ => []

/-- Claim C6 (amended): a second successful `init` leaves the token
list, readiness, and every configuration field unchanged and repeats the
same warnings, but appends the fetched direct pools to `_pools` again —
so `init` is idempotent on the observable state only when the fetched
direct-pool list is empty. -/
theorem init_reinit_appends_pools (env : Env) (s s1 s2 : UniswapState)
    (w1 w2 : List PoolWarning)
    (h1 : init env s = .ok (s1, w1)) (h2 : init env s1 = .ok (s2, w2)) :
    s2.tokenList = s1.tokenList ∧
    s2.pools = s1.pools ++ fetchedPools env s1 ∧
    s2.ready = true ∧ s2.chain = s1.chain ∧ s2.chainId = s1.chainId ∧
    s2.poolStrings = s1.poolStrings ∧ s2.maxHops = s1.maxHops ∧
    w2 = w1 := by
  unfold init at h1 h2
  split at h1
  · simp at h1
  · simp only [initDirectPools, Except.ok.injEq, Prod.mk.injEq] at h1
    obtain ⟨hs1, hw1⟩ := h1
    subst hs1
    subst hw1
    split at h2
    · simp at h2
    · simp only [initDirectPools, Except.ok.injEq, Prod.mk.injEq] at h2
      obtain ⟨hs2, hw2⟩ := h2
      subst hs2
      subst hw2
      refine ⟨?_, rfl, rfl, rfl, rfl, rfl, rfl, rfl⟩
      exact tokenLoad_idem s.tokenList s.chainId env.storedTokenList

unseal Rat.add Rat.sub Rat.mul Rat.inv in
theorem init_reinit_appends_pools_witness :
    initTwiceW.pools = initOnceW.pools ++ fetchedPools envW initOnceW := by
  have h := init_reinit_appends_pools envW stateW initOnceW initTwiceW
    w1W w2W (by rfl) (by rfl)
  exact h.2.1
